import Mathlib

/-!
Verification of the `BecknProcessor` resolution pipeline
(`src/BecknProcessor.ts` of `deeplink-beckn-engine`).

The embedding models:
  * JSON values (`Json`), with JavaScript truthiness (`falsy`);
  * JSON-schema nodes (`SchemaNode`) as declared by `JsonSchemaObject`;
  * the skeleton builder `processSchemaWithConst`;
  * the static overlay applier `applyYamlValues` (dot-path writes with
    falsy-triggered intermediate creation, strict-mode failure on writing a
    property of a primitive);
  * the dynamic resolver queue `dynamicResolve`, including the shallow-copy
    aliasing of `resolvedTemplate = {...this.parsedUsecase}`: writes through a
    shared top-level container are visible in the original instance, while
    top-level writes only touch the copy;
  * the validation gate `getParsedUsecase`, with the schema validator as an
    opaque function.

Machine strings/numbers: addresses are Lean `String`s split on `"."` exactly as
`String.prototype.split('.')` does; numbers are `Int` (floats are irrelevant to
every claim considered).
-/

/-- JSON values as produced and consumed by the processor. -/
inductive Json : Type where
  | null : Json
  | bool (b : Bool) : Json
  | num (n : Int) : Json
  | str (s : String) : Json
  | arr (elems : List Json) : Json
  | obj (fields : List (String × Json)) : Json

/-- JavaScript falsiness of a JSON value (`!x` in the source):
`null`, `false`, `0` and `""` are falsy; every object and array is truthy. -/
def falsy : Json → Bool
  | .null => true
  | .bool b => !b
  | .num n => n == 0
  | .str s => s == ""
  | .arr _ => false
  | .obj _ => false

/-- Property lookup on a JS object (first binding wins; keys are unique in
objects built by the code). `none` models reading an absent property. -/
def lookupField : List (String × Json) → String → Option Json
  | [], _ => none
  | (k, v) :: rest, key => if k == key then some v else lookupField rest key

/-- Property assignment on a JS object: an existing key keeps its position and
gets the new value, a new key is appended (JS insertion order). -/
def insertField : List (String × Json) → String → Json → List (String × Json)
  | [], key, v => [(key, v)]
  | (k, w) :: rest, key, v =>
      if k == key then (k, v) :: rest else (k, w) :: insertField rest key v

/-- Split a character list at `'.'`, JavaScript style: the empty list yields
one empty segment and empty segments are kept. The result is never `[]`. -/
def dotSegs : List Char → List String
  | [] => [""]
  | c :: rest =>
      if c = '.' then "" :: dotSegs rest
      else
        match dotSegs rest with
        | s :: ss => (c.toString ++ s) :: ss
        | [] => [c.toString]

/-- `address.split('.')` of the source: note `"".split('.') = [""]`, so the
result is never empty and empty segments are kept. -/
def splitDot (s : String) : List String := dotSegs s.data

/-- Read a value at a segment path, descending only through objects and never
creating anything (used to state what ends up at an address). -/
def jget : Json → List String → Option Json
  | j, [] => some j
  | .obj m, k :: rest =>
      match lookupField m k with
      | some c => jget c rest
      | none => none
  | _, _ :: _ => none

/-- `jget` from a top-level record (the processor's instance). -/
def jgetTop (m : List (String × Json)) (parts : List String) : Option Json :=
  jget (Json.obj m) parts

/-- The `type` field of `JsonSchemaObject`. -/
inductive SType : Type where
  | object | array | string | number | integer | boolean | null
deriving DecidableEq

/-- An element of the `oneOf` array:
`string | number | boolean | {const: string; title: string}`. -/
inductive OneOfElem : Type where
  | str (s : String)
  | num (n : Int)
  | bool (b : Bool)
  | constTitle (c title : String)
deriving DecidableEq

/-- A schema node, mirroring `JsonSchemaObject` (the `$schema`/`$id`/`$ref`/
`$comment` metadata strings play no role in any processing path and are not
modelled). `properties`, `items`, `required`, `oneOf`, `additionalProperties`
and `const` are optional exactly as in the source type. -/
inductive SchemaNode : Type where
  | mk (type : SType)
       (properties : Option (List (String × SchemaNode)))
       (items : Option SchemaNode)
       (required : Option (List String))
       (oneOf : Option (List OneOfElem))
       (additionalProperties : Option Bool)
       (const : Option String)

def SchemaNode.type : SchemaNode → SType
  | .mk t _ _ _ _ _ _ => t

def SchemaNode.properties : SchemaNode → Option (List (String × SchemaNode))
  | .mk _ p _ _ _ _ _ => p

def SchemaNode.items : SchemaNode → Option SchemaNode
  | .mk _ _ i _ _ _ _ => i

def SchemaNode.const : SchemaNode → Option String
  | .mk _ _ _ _ _ _ c => c

def stypeName : SType → String
  | .object => "object"
  | .array => "array"
  | .string => "string"
  | .number => "number"
  | .integer => "integer"
  | .boolean => "boolean"
  | .null => "null"

def oneOfToJson : OneOfElem → Json
  | .str s => .str s
  | .num n => .num n
  | .bool b => .bool b
  | .constTitle c title => .obj [("const", .str c), ("title", .str title)]

mutual
/-- The raw JSON serialization of a schema node, as the node appears when the
source embeds it verbatim (the `properties: schema.properties` /
`items: schema.items` spreads keep raw subschema objects as values). -/
def schemaToJson : SchemaNode → Json
  | .mk t props items req oneOf addProps c =>
      .obj ([("type", .str (stypeName t))]
        ++ (match props with
            | some l => [("properties", Json.obj (schemaFieldsToJson l))]
            | none => [])
        ++ (match items with
            | some i => [("items", schemaToJson i)]
            | none => [])
        ++ (match req with
            | some r => [("required", Json.arr (r.map Json.str))]
            | none => [])
        ++ (match oneOf with
            | some os => [("oneOf", Json.arr (os.map oneOfToJson))]
            | none => [])
        ++ (match addProps with
            | some b => [("additionalProperties", Json.bool b)]
            | none => [])
        ++ (match c with
            | some cv => [("const", Json.str cv)]
            | none => []))

def schemaFieldsToJson : List (String × SchemaNode) → List (String × Json)
  | [] => []
  | (k, v) :: rest => (k, schemaToJson v) :: schemaFieldsToJson rest
end

mutual
/-- `processSchemaWithConst` (src/BecknProcessor.ts:77-108): a node with a
`const` yields the constant; else an object node with `properties` yields the
object of recursively processed properties; else an array node with `items`
yields a one-element array of the processed item; else the node's own
serialization (minus the absent `const`) is left in place as a placeholder
descriptor (`{type, properties?, items?, required?, oneOf?,
additionalProperties?}`). -/
def processSchemaWithConst : SchemaNode → Json
  | .mk t props items req oneOf addProps c =>
      match c with
      | some cv => .str cv
      | none =>
          match t, props with
          | .object, some l => .obj (processProperties l)
          | t', props' =>
              match t', items with
              | .array, some i => .arr [processSchemaWithConst i]
              | t'', items' =>
                  schemaToJson (.mk t'' props' items' req oneOf addProps none)

def processProperties : List (String × SchemaNode) → List (String × Json)
  | [] => []
  | (k, v) :: rest => (k, processSchemaWithConst v) :: processProperties rest
end

/-- The intermediate-navigation step of `applyYamlValues`
(`if (!current[pathParts[i]]) current[pathParts[i]] = {}`): an absent or falsy
binding is replaced by a fresh empty object; a truthy binding is kept as-is. -/
def freshen : Option Json → Json
  | none => Json.obj []
  | some c => if falsy c then Json.obj [] else c

/-- One overlay write below the top level. Writing a property of a non-object
(a primitive reached through a truthy scalar binding) throws in the strict-mode
compiled source; that failure is `none`. -/
def writeStatic : Json → List String → Json → Option Json
  | c, [k], v =>
      match c with
      | .obj m => some (.obj (insertField m k v))
      | _ => none
  | c, k :: k' :: rest, v =>
      match c with
      | .obj m =>
          (writeStatic (freshen (lookupField m k)) (k' :: rest) v).map
            (fun w => .obj (insertField m k w))
      | _ => none
  | _, [], _ => none

/-- One overlay write starting from the top-level record (`current = result`
in the source, always an object). -/
def writeStaticTop (m : List (String × Json)) :
    List String → Json → Option (List (String × Json))
  | [k], v => some (insertField m k v)
  | k :: k' :: rest, v =>
      (writeStatic (freshen (lookupField m k)) (k' :: rest) v).map
        (insertField m k)
  | [], _ => none

/-- `applyYamlValues` (src/BecknProcessor.ts:110-131): every
`(address, value)` entry of the static overlay is written in iteration order,
splitting the address on `.` and creating a fresh `{}` for every absent or
falsy intermediate. `none` models the strict-mode `TypeError` raised when a
truthy non-object stands at an intermediate position. -/
def applyYamlValues (staticData : List (String × Json))
    (parsedUsecase : List (String × Json)) : Option (List (String × Json)) :=
  staticData.foldl
    (fun acc e => acc.bind (fun m => writeStaticTop m (splitDot e.1) e.2))
    (some parsedUsecase)

/-- The navigation-and-assignment of `dynamicResolve`
(src/BecknProcessor.ts:161-169) below the top level: unlike the static overlay
path, **no** intermediate is ever created; an absent intermediate leaves
`current` undefined and the next access (or the final assignment) throws, and a
primitive intermediate makes the final assignment throw. Both are `none`. -/
def writeDynamic : Json → List String → Json → Option Json
  | c, [k], v =>
      match c with
      | .obj m => some (.obj (insertField m k v))
      | _ => none
  | c, k :: k' :: rest, v =>
      match c with
      | .obj m =>
          match lookupField m k with
          | some c2 =>
              (writeDynamic c2 (k' :: rest) v).map
                (fun w => .obj (insertField m k w))
          | none => none
      | _ => none
  | _, [], _ => none

/-- State threaded through `dynamicResolve`. `tpl` is `resolvedTemplate`, the
shallow copy `{...this.parsedUsecase}`; `orig` is `this.parsedUsecase` itself.
The copy shares every top-level child with the original, so a write below a
shared top-level key mutates both. `detached` records the top-level keys whose
binding in `tpl` was replaced by a single-segment write during this call: those
bindings are fresh values, no longer shared with `orig`. -/
structure DynState : Type where
  tpl : List (String × Json)
  orig : List (String × Json)
  detached : List String

/-- One resolved entry applied to the state: a single-segment address assigns
at the top level of the copy only (detaching the key); a multi-segment address
writes through the top-level binding, which also updates the original whenever
that binding is still shared. `none` is the thrown `TypeError` when navigation
hits an absent key or a primitive. -/
def dynStep (st : DynState) (path : String) (v : Json) : Option DynState :=
  match splitDot path with
  | [k] =>
      some { tpl := insertField st.tpl k v, orig := st.orig,
             detached := k :: st.detached }
  | k :: k' :: rest =>
      match lookupField st.tpl k with
      | none => none
      | some child =>
          match writeDynamic child (k' :: rest) v with
          | none => none
          | some child' =>
              some { tpl := insertField st.tpl k child',
                     orig := if st.detached.contains k then st.orig
                             else insertField st.orig k child',
                     detached := st.detached }
  | [] => none

/-- A registered resolver's eventual outcome: a remote fetch or callback
either produces a value or fails; either kind of source is just its result
here (the source kinds differ only in how the value is obtained). -/
abbrev ResolverOutcome : Type := Except Unit Json

/-- The queue loop of `dynamicResolve`: entries run strictly in registration
order; a failed source (or a thrown write) aborts immediately. On success the
processor's instance becomes the template; on failure the assignment
`this.parsedUsecase = resolvedTemplate` is never reached, so the caller keeps
`orig` — including every mutation that reached it through shared containers.
The Bool records success. -/
def dynamicResolveGo : List (String × ResolverOutcome) → DynState →
    Bool × List (String × Json)
  | [], st => (true, st.tpl)
  | (path, outcome) :: rest, st =>
      match outcome with
      | .error _ => (false, st.orig)
      | .ok v =>
          match dynStep st path v with
          | none => (false, st.orig)
          | some st' => dynamicResolveGo rest st'

/-- `dynamicResolve` (src/BecknProcessor.ts:146-173) as a function from the
registered entries and the current instance to (success flag, instance the
processor holds afterwards). -/
def dynamicResolve (resolvers : List (String × ResolverOutcome))
    (parsedUsecase : List (String × Json)) : Bool × List (String × Json) :=
  dynamicResolveGo resolvers
    { tpl := parsedUsecase, orig := parsedUsecase, detached := [] }

/-- A structured validator error (ajv's error objects, kept opaque). -/
abbrev ValError : Type := String

/-- The compiled schema validator, opaque: a flag plus the structured error
list the validator exposes after a run (`schemaValidator.errors`). -/
abbrev Validator : Type := Json → Bool × List ValError

/-- The processor's mutable state (src/BecknProcessor.ts:35-53): the overlay
data loaded at construction, the materialized instance (initialized to `{}` by
the field initializer), the registered resolver queue, and the compiled
validator. File loading and ajv compilation are the external collaborators. -/
structure BecknProcessor : Type where
  staticData : List (String × Json)
  parsedUsecase : Json
  dynamicResolvers : List (String × ResolverOutcome)
  schemaValidator : Validator

/-- The constructor's effect on the modelled state: the overlay is loaded,
`parsedUsecase` starts as the empty object, and no resolver is registered. -/
def mkBecknProcessor (staticData : List (String × Json))
    (schemaValidator : Validator) : BecknProcessor :=
  { staticData := staticData, parsedUsecase := Json.obj [],
    dynamicResolvers := [], schemaValidator := schemaValidator }

/-- `getParsedUsecase` (src/BecknProcessor.ts:55-66): run the validator over
the current instance; on failure throw an error whose cause carries the
validator's error list and the instance snapshot; on success return the
instance unchanged. -/
def getParsedUsecase (p : BecknProcessor) :
    Except (List ValError × Json) Json :=
  let run := p.schemaValidator p.parsedUsecase
  if run.1 then Except.ok p.parsedUsecase
  else Except.error (run.2, p.parsedUsecase)

/-- `addDynamicResolver` (src/BecknProcessor.ts:139-144): unconditionally
append the entry — no address validation of any kind. -/
def addDynamicResolver (p : BecknProcessor) (path : String)
    (resolver : ResolverOutcome) : BecknProcessor :=
  { p with dynamicResolvers := p.dynamicResolvers ++ [(path, resolver)] }

/-- A step from a schema node to a child: into a named property, or into the
`items` schema. -/
inductive SchemaStep : Type where
  | prop (k : String)
  | item
deriving DecidableEq

def lookupSchema : List (String × SchemaNode) → String → Option SchemaNode
  | [], _ => none
  | (k, v) :: rest, key => if k == key then some v else lookupSchema rest key

/-- The schema node reached by following `properties`/`items` along a path of
steps (reachability in the sense of the structural-completeness property). -/
def schemaAt : SchemaNode → List SchemaStep → Option SchemaNode
  | n, [] => some n
  | n, .prop k :: rest =>
      match n.properties with
      | some l =>
          match lookupSchema l k with
          | some c => schemaAt c rest
          | none => none
      | none => none
  | n, .item :: rest =>
      match n.items with
      | some i => schemaAt i rest
      | none => none

/-- The skeleton fragment at the address corresponding to a step path: a
`prop` step reads the key of an object fragment; an `item` step reads the
single element the builder seeds for an array fragment. -/
def skelAt : Json → List SchemaStep → Option Json
  | j, [] => some j
  | j, .prop k :: rest =>
      match j with
      | .obj m =>
          match lookupField m k with
          | some c => skelAt c rest
          | none => none
      | _ => none
  | j, .item :: rest =>
      match j with
      | .arr (x :: _) => skelAt x rest
      | _ => none

/-- A step path along which every node is actually materialized by the
builder: the node carries no constant (constants short-circuit the subtree)
and the node's declared kind matches the step — an object node with the
stepped-to property declared, or an array node with an `items` schema. -/
def materializedChain : SchemaNode → List SchemaStep → Bool
  | _, [] => true
  | n, .prop k :: rest =>
      n.const.isNone && (n.type == SType.object) &&
        (match n.properties with
         | some l =>
             match lookupSchema l k with
             | some c => materializedChain c rest
             | none => false
         | none => false)
  | n, .item :: rest =>
      n.const.isNone && (n.type == SType.array) &&
        (match n.items with
         | some i => materializedChain i rest
         | none => false)

/-- A JSON scalar: neither an object nor an array. (The claims' "container"
means object or array.) -/
def scalarJson : Json → Bool
  | .arr _ => false
  | .obj _ => false
  | _ => true

/-- The value `v` already sits at segment path `parts` inside `c`, with every
intermediate binding present and truthy: exactly the situation in which
re-running the overlay write changes nothing. -/
def holdsAt : Json → List String → Json → Prop
  | .obj m, [k], v => lookupField m k = some v
  | .obj m, k :: k' :: rest, v =>
      match lookupField m k with
      | some c2 => falsy c2 = false ∧ holdsAt c2 (k' :: rest) v
      | none => False
  | _, _, _ => False

/-- `holdsAt` from the top-level record. -/
def holdsTop (m : List (String × Json)) : List String → Json → Prop
  | [k], v => lookupField m k = some v
  | k :: k' :: rest, v =>
      match lookupField m k with
      | some c2 => falsy c2 = false ∧ holdsAt c2 (k' :: rest) v
      | none => False
  | [], _ => False

/-- Neither segment path extends the other (and hence they are also not
equal). -/
def nonPrefixPair (p q : List String) : Bool :=
  !(p.isPrefixOf q) && !(q.isPrefixOf p)

/-- Pairwise non-nesting of the addresses of a static overlay. -/
def pairwiseAddrs : List (String × Json) → Bool
  | [] => true
  | (p, _) :: rest =>
      rest.all (fun e => nonPrefixPair (splitDot p) (splitDot e.1)) &&
        pairwiseAddrs rest

/-- `{type: "string"}` — the leaf schema used by the unit-test fixture. -/
def strSchema : SchemaNode := .mk .string none none none none none none

/-- The unit-test fixture `mockSchema`: a name with a constant, a number, and
a nested address object. -/
def mockSchema : SchemaNode :=
  .mk .object
    (some [("name", .mk .string none none none none none (some "test")),
           ("age", .mk .number none none none none none none),
           ("address", .mk .object
              (some [("street", strSchema), ("city", strSchema)])
              none none none none none)])
    none none none none none

/-- A node carrying both a constant and a declared property. -/
def constWithChild : SchemaNode :=
  .mk .object (some [("a", strSchema)]) none none none none (some "c")

/-- A node whose `type` is not `object` but which still declares
`properties`. -/
def mismatchWithChild : SchemaNode :=
  .mk .string (some [("a", strSchema)]) none none none none none

/-- A validator accepting exactly the empty object, with a fixed error list
otherwise. -/
def onlyEmptyObjValidator : Validator := fun j =>
  match j with
  | .obj [] => (true, [])
  | _ => (false, ["must be empty object"])

/-- A validator rejecting everything. -/
def rejectAllValidator : Validator := fun _ => (false, ["always invalid"])

theorem lookupField_insertField_self (m : List (String × Json)) (k : String)
    (v : Json) : lookupField (insertField m k v) k = some v := by
  induction m with
  | nil => simp [insertField, lookupField]
  | cons hd tl ih =>
      obtain ⟨k', w⟩ := hd
      by_cases h : k' = k
      · subst h; simp [insertField, lookupField]
      · simp [insertField, lookupField, h, ih]

theorem lookupField_insertField_ne (m : List (String × Json)) (k k' : String)
    (v : Json) (h : k' ≠ k) :
    lookupField (insertField m k v) k' = lookupField m k' := by
  induction m with
  | nil =>
      simp [insertField, lookupField]
      exact fun hh => h hh.symm
  | cons hd tl ih =>
      obtain ⟨k0, w⟩ := hd
      by_cases h0 : k0 = k
      · subst h0
        have : k0 ≠ k' := fun hh => h hh.symm
        simp [insertField, lookupField, this]
      · simp [insertField, lookupField, h0, ih]

theorem insertField_self (m : List (String × Json)) (k : String) (v : Json)
    (h : lookupField m k = some v) : insertField m k v = m := by
  induction m with
  | nil => simp [lookupField] at h
  | cons hd tl ih =>
      obtain ⟨k0, w⟩ := hd
      by_cases h0 : k0 = k
      · subst h0
        simp [lookupField] at h
        simp [insertField, h]
      · simp [lookupField, h0] at h
        simp [insertField, h0, ih h]

/-- C1. A schema node carrying an embedded constant is materialized as that
constant verbatim, whatever its `type`, `properties`, `items`, `required`,
`oneOf` or `additionalProperties` say: the constant short-circuits the object
and array branches of the builder. -/
theorem const_short_circuits (t : SType)
    (props : Option (List (String × SchemaNode))) (items : Option SchemaNode)
    (req : Option (List String)) (oneOf : Option (List OneOfElem))
    (addProps : Option Bool) (c : String) :
    processSchemaWithConst (.mk t props items req oneOf addProps (some c))
      = Json.str c := rfl

/-- C8 (amended). No address is ever validated: an empty address (or one with
an empty segment) is split naively and its empty segment is used as an
ordinary object key, both by the static overlay applier and by dynamic
resolution; registration appends unconditionally. No `MalformedAddress`
error path exists. -/
theorem addresses_never_validated (m : List (String × Json)) (v : Json)
    (p : BecknProcessor) (path : String) (r : ResolverOutcome) :
    applyYamlValues [("", v)] m = some (insertField m "" v) ∧
    dynamicResolve [("", Except.ok v)] m = (true, insertField m "" v) ∧
    (addDynamicResolver p path r).dynamicResolvers
      = p.dynamicResolvers ++ [(path, r)] := ⟨rfl, rfl, rfl⟩

/-- C8, the claim as stated is false: empty and empty-segment addresses are
accepted and written under the empty key rather than rejected. -/
theorem addresses_never_validated_counterexample :
    applyYamlValues [("", Json.str "v")] [] = some [("", Json.str "v")] ∧
    applyYamlValues [("a.", Json.str "v")] []
      = some [("a", Json.obj [("", Json.str "v")])] ∧
    dynamicResolve [("", Except.ok (Json.str "v"))] []
      = (true, [("", Json.str "v")]) := ⟨rfl, rfl, rfl⟩

/-- C9. The public accessor fails exactly when the validator rejects the
current instance; on failure the error carries the validator's structured
error list together with the instance snapshot, and on success the instance
is returned unchanged. -/
theorem validation_gate_iff (p : BecknProcessor) :
    ((getParsedUsecase p).isOk = true
        ↔ (p.schemaValidator p.parsedUsecase).1 = true) ∧
    ((p.schemaValidator p.parsedUsecase).1 = true →
        getParsedUsecase p = Except.ok p.parsedUsecase) ∧
    ((p.schemaValidator p.parsedUsecase).1 = false →
        getParsedUsecase p
          = Except.error ((p.schemaValidator p.parsedUsecase).2,
              p.parsedUsecase)) := by
  by_cases h : (p.schemaValidator p.parsedUsecase).1 = true
  · simp [getParsedUsecase, h, Except.isOk, Except.toBool]
  · simp only [Bool.not_eq_true] at h
    simp [getParsedUsecase, h, Except.isOk, Except.toBool]

theorem validation_gate_iff_witness :
    getParsedUsecase (mkBecknProcessor [] onlyEmptyObjValidator)
      = Except.ok (Json.obj []) ∧
    getParsedUsecase
        { mkBecknProcessor [] onlyEmptyObjValidator with
            parsedUsecase := Json.str "z" }
      = Except.error (["must be empty object"], Json.str "z") :=
  ⟨(validation_gate_iff _).2.1 rfl, (validation_gate_iff _).2.2 rfl⟩

/-- C10. A freshly constructed processor holds the empty object as its
instance; calling the accessor at that point validates the empty object,
returning it when the schema accepts it and failing with the validation error
otherwise. -/
theorem fresh_processor_validates_empty (sd : List (String × Json))
    (val : Validator) :
    (mkBecknProcessor sd val).parsedUsecase = Json.obj [] ∧
    ((val (Json.obj [])).1 = true →
        getParsedUsecase (mkBecknProcessor sd val)
          = Except.ok (Json.obj [])) ∧
    ((val (Json.obj [])).1 = false →
        getParsedUsecase (mkBecknProcessor sd val)
          = Except.error ((val (Json.obj [])).2, Json.obj [])) := by
  refine ⟨rfl, fun h => ?_, fun h => ?_⟩ <;>
    simp [getParsedUsecase, mkBecknProcessor, h]

theorem fresh_processor_validates_empty_witness :
    getParsedUsecase (mkBecknProcessor [] onlyEmptyObjValidator)
      = Except.ok (Json.obj []) ∧
    getParsedUsecase (mkBecknProcessor [] rejectAllValidator)
      = Except.error (["always invalid"], Json.obj []) :=
  ⟨(fresh_processor_validates_empty [] onlyEmptyObjValidator).2.1 rfl,
   (fresh_processor_validates_empty [] rejectAllValidator).2.2 rfl⟩

theorem writeDynamic_read :
    ∀ (parts : List String) (c c' v : Json),
      writeDynamic c parts v = some c' → jget c' parts = some v := by
  intro parts
  induction parts with
  | nil => intro c c' v h; simp [writeDynamic] at h
  | cons k rest ih =>
      intro c c' v h
      cases rest with
      | nil =>
          cases c <;> simp [writeDynamic] at h
          subst h
          simp [jget, lookupField_insertField_self]
      | cons k' rest' =>
          cases c <;> simp [writeDynamic] at h
          case obj m =>
            cases hl : lookupField m k with
            | none => rw [hl] at h; simp at h
            | some c2 =>
                rw [hl] at h
                simp at h
                obtain ⟨w, hw, hc⟩ := h
                subst hc
                simp [jget, lookupField_insertField_self]
                exact ih c2 w v hw

theorem dynStep_read (st : DynState) (p : String) (v : Json)
    (st' : DynState) (h : dynStep st p v = some st') :
    jgetTop st'.tpl (splitDot p) = some v := by
  unfold dynStep at h
  cases hs : splitDot p with
  | nil => rw [hs] at h; simp at h
  | cons k rest =>
      cases rest with
      | nil =>
          rw [hs] at h
          simp at h
          subst h
          simp [jgetTop, jget, lookupField_insertField_self]
      | cons k' rest' =>
          rw [hs] at h
          simp at h
          cases hl : lookupField st.tpl k with
          | none => rw [hl] at h; simp at h
          | some child =>
              rw [hl] at h
              simp at h
              cases hw : writeDynamic child (k' :: rest') v with
              | none => rw [hw] at h; simp at h
              | some child' =>
                  rw [hw] at h
                  simp at h
                  rw [← h]
                  simp [jgetTop, jget, lookupField_insertField_self]
                  exact writeDynamic_read _ _ _ _ hw

/-- C4 (amended). Dynamic resolution writes with **no** intermediate
creation: when the first segment of a multi-segment address is absent from
the instance, the navigation reads `undefined`, the write throws, and
`dynamicResolve` fails leaving the instance unchanged — no fresh container is
created. -/
theorem dynamic_write_no_creation (p k : String) (ks : List String) (v : Json)
    (m : List (String × Json)) (hsplit : splitDot p = k :: ks) (hne : ks ≠ [])
    (habs : lookupField m k = none) :
    dynamicResolve [(p, Except.ok v)] m = (false, m) := by
  obtain ⟨k2, rest, rfl⟩ : ∃ k2 rest, ks = k2 :: rest := by
    cases ks with
    | nil => exact absurd rfl hne
    | cons a b => exact ⟨a, b, rfl⟩
  simp [dynamicResolve, dynamicResolveGo, dynStep, hsplit, habs]

theorem dynamic_write_no_creation_witness :
    splitDot "a.b" = ["a", "b"] ∧
    dynamicResolve [("a.b", Except.ok (Json.str "x"))] [] = (false, []) :=
  ⟨rfl, dynamic_write_no_creation "a.b" "a" ["b"] (Json.str "x") [] rfl
    (by simp) rfl⟩

/-- C4, the claim as stated is false: with `a` absent, writing at `a.b`
during dynamic resolution does not create `{a: {}}` and succeed — it fails
and leaves the instance untouched. -/
theorem dynamic_write_no_creation_counterexample :
    dynamicResolve [("a.b", Except.ok (Json.str "x"))] [] = (false, []) ∧
    dynamicResolve [("a.b", Except.ok (Json.str "x"))] []
      ≠ (true, [("a", Json.obj [("b", Json.str "x")])]) := by
  have h1 : dynamicResolve [("a.b", Except.ok (Json.str "x"))] []
      = (false, []) := rfl
  refine ⟨h1, ?_⟩
  rw [h1]
  intro h
  exact Bool.noConfusion (congrArg Prod.fst h)

/-- C5. With two entries registered for the same address, both resolving
successfully, a successful `dynamicResolve` leaves the later-registered
entry's value at that address: the queue loop is sequential by construction
(entry `i+1` is reached only after entry `i`'s value is written), so the
second write lands last and wins. -/
theorem dynamic_overwrite_order (p : String) (v1 v2 : Json)
    (m mfin : List (String × Json))
    (h : dynamicResolve [(p, Except.ok v1), (p, Except.ok v2)] m
      = (true, mfin)) :
    jgetTop mfin (splitDot p) = some v2 := by
  have hred : dynamicResolve [(p, Except.ok v1), (p, Except.ok v2)] m
      = match dynStep { tpl := m, orig := m, detached := [] } p v1 with
        | none => (false, m)
        | some st1 =>
            match dynStep st1 p v2 with
            | none => (false, st1.orig)
            | some st2 => (true, st2.tpl) := rfl
  rw [hred] at h
  cases h1 : dynStep { tpl := m, orig := m, detached := [] } p v1 with
  | none => rw [h1] at h; simp at h
  | some st1 =>
      rw [h1] at h
      simp only at h
      cases h2 : dynStep st1 p v2 with
      | none => rw [h2] at h; simp at h
      | some st2 =>
          rw [h2] at h
          simp only at h
          have hm : st2.tpl = mfin := congrArg Prod.snd h
          exact hm ▸ dynStep_read st1 p v2 st2 h2

theorem dynamic_overwrite_order_witness :
    dynamicResolve
        [("a.b", Except.ok (Json.str "dyn1")),
         ("a.b", Except.ok (Json.str "dyn2"))] [("a", Json.obj [])]
      = (true, [("a", Json.obj [("b", Json.str "dyn2")])]) ∧
    jgetTop [("a", Json.obj [("b", Json.str "dyn2")])] (splitDot "a.b")
      = some (Json.str "dyn2") :=
  ⟨rfl, dynamic_overwrite_order "a.b" (Json.str "dyn1") (Json.str "dyn2")
    [("a", Json.obj [])] [("a", Json.obj [("b", Json.str "dyn2")])] rfl⟩

/-- C3 (amended). A failing source aborts the queue at once: nothing after
the failing entry influences the outcome (entries past it are never
resolved). What an earlier successful entry leaves behind depends on its
address: a write at a multi-segment address goes through the top-level
binding shared between the working template and the instance, so it remains
applied to the instance after the failure; a single-segment write only
touches the discarded template (see the counterexample). -/
theorem dynamic_failure_abort_retention :
    (∀ (pre : List (String × ResolverOutcome)) (path : String)
        (post : List (String × ResolverOutcome)) (m : List (String × Json)),
      dynamicResolve (pre ++ (path, Except.error ()) :: post) m
        = dynamicResolve (pre ++ [(path, Except.error ())]) m) ∧
    (∀ (path k1 k2 : String) (v : Json) (p2 : String)
        (m mi : List (String × Json)),
      splitDot path = [k1, k2] → lookupField m k1 = some (Json.obj mi) →
      dynamicResolve [(path, Except.ok v), (p2, Except.error ())] m
        = (false, insertField m k1 (Json.obj (insertField mi k2 v))) ∧
      jgetTop (dynamicResolve
          [(path, Except.ok v), (p2, Except.error ())] m).2 (splitDot path)
        = some v) := by
  constructor
  · have go : ∀ (pre : List (String × ResolverOutcome)) (path : String)
        (post : List (String × ResolverOutcome)) (st : DynState),
        dynamicResolveGo (pre ++ (path, Except.error ()) :: post) st
          = dynamicResolveGo (pre ++ [(path, Except.error ())]) st := by
      intro pre
      induction pre with
      | nil => intro path post st; rfl
      | cons e pre' ih =>
          intro path post st
          obtain ⟨q, r⟩ := e
          cases r with
          | error u => rfl
          | ok v =>
              simp only [List.cons_append, dynamicResolveGo]
              cases hst : dynStep st q v with
              | none => simp only [hst]
              | some st' => simp only [hst]; exact ih path post st'
    intro pre path post m
    exact go pre path post _
  · intro path k1 k2 v p2 m mi hsplit hlook
    have hstep : dynStep { tpl := m, orig := m, detached := [] } path v
        = some { tpl := insertField m k1 (Json.obj (insertField mi k2 v)),
                 orig := insertField m k1 (Json.obj (insertField mi k2 v)),
                 detached := [] } := by
      unfold dynStep
      rw [hsplit]
      simp [hlook, writeDynamic, List.contains]
    have hred : dynamicResolve [(path, Except.ok v), (p2, Except.error ())] m
        = match dynStep { tpl := m, orig := m, detached := [] } path v with
          | none => (false, m)
          | some st1 => (false, st1.orig) := rfl
    have hmain : dynamicResolve [(path, Except.ok v), (p2, Except.error ())] m
        = (false, insertField m k1 (Json.obj (insertField mi k2 v))) := by
      rw [hred, hstep]
    refine ⟨hmain, ?_⟩
    rw [hmain, hsplit]
    simp [jgetTop, jget, lookupField_insertField_self]

theorem dynamic_failure_abort_retention_witness :
    dynamicResolve
        ([("a.b", Except.ok (Json.str "x"))]
          ++ ("f", Except.error ()) :: [("c.d", Except.ok (Json.str "y"))])
        [("a", Json.obj [])]
      = dynamicResolve
          ([("a.b", Except.ok (Json.str "x"))] ++ [("f", Except.error ())])
          [("a", Json.obj [])] ∧
    (dynamicResolve
        [("a.b", Except.ok (Json.str "v")), ("x", Except.error ())]
        [("a", Json.obj [])]
      = (false, [("a", Json.obj [("b", Json.str "v")])]) ∧
     jgetTop (dynamicResolve
          [("a.b", Except.ok (Json.str "v")), ("x", Except.error ())]
          [("a", Json.obj [])]).2 (splitDot "a.b")
        = some (Json.str "v")) :=
  ⟨dynamic_failure_abort_retention.1 [("a.b", Except.ok (Json.str "x"))] "f"
      [("c.d", Except.ok (Json.str "y"))] [("a", Json.obj [])],
   dynamic_failure_abort_retention.2 "a.b" "a" "b" (Json.str "v") "x"
      [("a", Json.obj [])] [] rfl rfl⟩

/-- C3, the claim as stated is false for single-segment addresses: the first
entry's value is written to the shallow working copy only, so after the
second entry fails the instance does **not** retain it — `a` is absent from
the retained instance. -/
theorem dynamic_failure_counterexample :
    dynamicResolve [("a", Except.ok (Json.str "v")), ("b", Except.error ())]
        [] = (false, []) ∧
    jgetTop (dynamicResolve
        [("a", Except.ok (Json.str "v")), ("b", Except.error ())] []).2
        (splitDot "a") = none := ⟨rfl, rfl⟩

/-- C6 (amended). The overlay applier's intermediate policy keys on JS
truthiness, not on container-ness: a missing **or falsy** intermediate
binding is replaced by a fresh empty container (old content discarded, not
merged), but a truthy non-container intermediate is kept, the navigation
descends into it, and the write then raises — so overlay application can
fail. -/
theorem static_overlay_intermediate_policy :
    (∀ (m : List (String × Json)) (k k' : String) (rest : List String)
        (v : Json),
      (lookupField m k = none ∨
        ∃ c, lookupField m k = some c ∧ falsy c = true) →
      writeStaticTop m (k :: k' :: rest) v
        = (writeStatic (Json.obj []) (k' :: rest) v).map (insertField m k)) ∧
    (∀ (m : List (String × Json)) (k k' : String) (rest : List String)
        (v c : Json),
      lookupField m k = some c → falsy c = false → scalarJson c = true →
      writeStaticTop m (k :: k' :: rest) v = none) := by
  constructor
  · intro m k k' rest v h
    have hw : writeStaticTop m (k :: k' :: rest) v
        = Option.map (insertField m k)
            (writeStatic (freshen (lookupField m k)) (k' :: rest) v) := rfl
    rw [hw]
    rcases h with h | ⟨c, hc, hf⟩
    · rw [h]; rfl
    · rw [hc]
      simp [freshen, hf]
  · intro m k k' rest v c hc hf hs
    have hw : writeStaticTop m (k :: k' :: rest) v
        = Option.map (insertField m k)
            (writeStatic (freshen (lookupField m k)) (k' :: rest) v) := rfl
    rw [hw, hc]
    simp only [freshen, hf, Bool.false_eq_true, if_false]
    cases rest with
    | nil => cases c <;> simp_all [scalarJson, writeStatic]
    | cons a b => cases c <;> simp_all [scalarJson, writeStatic]

theorem static_overlay_intermediate_policy_witness :
    writeStaticTop [("a", Json.num 0)] ["a", "b"] (Json.str "x")
      = some [("a", Json.obj [("b", Json.str "x")])] ∧
    writeStaticTop [("a", Json.str "t")] ["a", "b"] (Json.str "x") = none :=
  ⟨(static_overlay_intermediate_policy.1 [("a", Json.num 0)] "a" "b" []
      (Json.str "x") (Or.inr ⟨Json.num 0, rfl, rfl⟩)).trans rfl,
   static_overlay_intermediate_policy.2 [("a", Json.str "t")] "a" "b" []
      (Json.str "x") (Json.str "t") rfl rfl rfl⟩

/-- C6, the claim as stated is false: on the skeleton `{a: "x"}` (a constant
string at `a`) the overlay entry `a.b.c` does not replace the incompatible
non-container `"x"` by a fresh container — the truthy scalar is kept, the
navigation descends into it, reads `undefined` at `b`, and the chain raises,
so overlay application is not error-free either. -/
theorem static_overlay_policy_counterexample :
    processSchemaWithConst
        (.mk .object
          (some [("a", .mk .string none none none none none (some "x"))])
          none none none none none)
      = Json.obj [("a", Json.str "x")] ∧
    applyYamlValues [("a.b.c", Json.str "y")] [("a", Json.str "x")] = none :=
  ⟨rfl, rfl⟩

theorem lookupField_processProperties (l : List (String × SchemaNode))
    (k : String) :
    lookupField (processProperties l) k
      = (lookupSchema l k).map processSchemaWithConst := by
  induction l with
  | nil => rfl
  | cons e rest ih =>
      obtain ⟨k0, v0⟩ := e
      by_cases h : k0 = k
      · simp [processProperties, lookupField, lookupSchema, h]
      · simp [processProperties, lookupField, lookupSchema, h, ih]

/-- C2 (amended). Structural completeness holds along every materialized
chain: whenever every node on the way carries no constant and its kind
matches the step taken (object node with the declared property, array node
with an `items` schema), the reachable node appears in the skeleton at the
corresponding address — and the fragment there is exactly the recursively
built fragment of that node. A constant on an ancestor (or a kind mismatch)
cuts the subtree off, see the counterexample. -/
theorem skeleton_structural_completeness :
    ∀ (steps : List SchemaStep) (n : SchemaNode),
      materializedChain n steps = true →
      ∃ m, schemaAt n steps = some m ∧
        skelAt (processSchemaWithConst n) steps
          = some (processSchemaWithConst m) := by
  intro steps
  induction steps with
  | nil => intro n _; exact ⟨n, rfl, rfl⟩
  | cons s rest ih =>
      intro n h
      cases n with
      | mk t props items req oo ap c =>
          cases s with
          | prop k =>
              simp only [materializedChain, SchemaNode.const, SchemaNode.type,
                SchemaNode.properties, Bool.and_eq_true] at h
              obtain ⟨⟨hc, ht⟩, hrest⟩ := h
              have hc' : c = none := by
                cases c with
                | none => rfl
                | some cv => simp [Option.isNone] at hc
              have ht' : t = SType.object := by
                simpa using ht
              subst hc'
              subst ht'
              cases props with
              | none => simp at hrest
              | some l =>
                  simp only at hrest
                  cases hl : lookupSchema l k with
                  | none => rw [hl] at hrest; simp at hrest
                  | some child =>
                      rw [hl] at hrest
                      obtain ⟨mm, h1, h2⟩ := ih child hrest
                      refine ⟨mm, ?_, ?_⟩
                      · simp [schemaAt, SchemaNode.properties, hl, h1]
                      · have hp : processSchemaWithConst
                            (.mk .object (some l) items req oo ap none)
                            = .obj (processProperties l) := rfl
                        rw [hp]
                        simp [skelAt, lookupField_processProperties, hl, h2]
          | item =>
              simp only [materializedChain, SchemaNode.const, SchemaNode.type,
                SchemaNode.items, Bool.and_eq_true] at h
              obtain ⟨⟨hc, ht⟩, hrest⟩ := h
              have hc' : c = none := by
                cases c with
                | none => rfl
                | some cv => simp [Option.isNone] at hc
              have ht' : t = SType.array := by
                simpa using ht
              subst hc'
              subst ht'
              cases items with
              | none => simp at hrest
              | some i =>
                  simp only at hrest
                  obtain ⟨mm, h1, h2⟩ := ih i hrest
                  refine ⟨mm, ?_, ?_⟩
                  · simp [schemaAt, SchemaNode.items, h1]
                  · have hp : processSchemaWithConst
                        (.mk .array props (some i) req oo ap none)
                        = .arr [processSchemaWithConst i] := rfl
                    rw [hp]
                    simp [skelAt, h2]

theorem skeleton_structural_completeness_witness :
    materializedChain mockSchema [.prop "address", .prop "street"] = true ∧
    skelAt (processSchemaWithConst mockSchema)
        [.prop "address", .prop "street"]
      = some (Json.obj [("type", Json.str "string")]) := by
  refine ⟨rfl, ?_⟩
  obtain ⟨mm, h1, h2⟩ := skeleton_structural_completeness
      [.prop "address", .prop "street"] mockSchema rfl
  have hs : schemaAt mockSchema [.prop "address", .prop "street"]
      = some strSchema := rfl
  rw [hs] at h1
  injection h1 with h1'
  subst h1'
  exact h2

/-- C2, the claim as stated is false: a child declared under `properties` is
reachable in the schema yet absent from the skeleton when its parent carries
a constant (the constant replaces the whole subtree), and likewise when the
parent's `type` is not `object` (the node is serialized as a placeholder
whose keys are `type`/`properties`, not the property names). -/
theorem skeleton_structural_completeness_counterexample :
    (schemaAt constWithChild [.prop "a"]).isSome = true ∧
    skelAt (processSchemaWithConst constWithChild) [.prop "a"] = none ∧
    (schemaAt mismatchWithChild [.prop "a"]).isSome = true ∧
    skelAt (processSchemaWithConst mismatchWithChild) [.prop "a"] = none :=
  ⟨rfl, rfl, rfl, rfl⟩

theorem writeStatic_shape (k : String) (rest : List String) (c v w : Json)
    (h : writeStatic c (k :: rest) v = some w) : ∃ mw, w = Json.obj mw := by
  cases rest with
  | nil =>
      cases c <;> simp [writeStatic] at h
      exact ⟨_, h.symm⟩
  | cons k' r' =>
      cases c <;> simp [writeStatic] at h
      obtain ⟨w2, _, hww⟩ := h
      exact ⟨_, hww.symm⟩

theorem writeStatic_identity :
    ∀ (parts : List String) (c v : Json),
      holdsAt c parts v → writeStatic c parts v = some c := by
  intro parts
  induction parts with
  | nil => intro c v h; cases c <;> simp [holdsAt] at h
  | cons k rest ih =>
      intro c v h
      cases rest with
      | nil =>
          cases c <;> simp [holdsAt] at h
          case obj m => simp [writeStatic, insertField_self m k v h]
      | cons k' rest' =>
          cases c <;> simp [holdsAt] at h
          case obj m =>
            cases hl : lookupField m k with
            | none => rw [hl] at h; simp at h
            | some c2 =>
                rw [hl] at h
                simp at h
                obtain ⟨hf, hrec⟩ := h
                simp [writeStatic, hl, freshen, hf, ih _ _ hrec,
                  insertField_self m k c2 hl]

theorem writeStatic_holdsAt :
    ∀ (parts : List String) (c v c' : Json),
      writeStatic c parts v = some c' → holdsAt c' parts v := by
  intro parts
  induction parts with
  | nil => intro c v c' h; simp [writeStatic] at h
  | cons k rest ih =>
      intro c v c' h
      cases rest with
      | nil =>
          cases c <;> simp [writeStatic] at h
          case obj m =>
            subst h
            simp [holdsAt, lookupField_insertField_self]
      | cons k' rest' =>
          cases c <;> simp [writeStatic] at h
          case obj m =>
            obtain ⟨w, hw, hc⟩ := h
            subst hc
            obtain ⟨mw, rfl⟩ := writeStatic_shape k' rest' _ v w hw
            simp [holdsAt, lookupField_insertField_self, falsy]
            exact ih _ _ _ hw

theorem writeStatic_preserves :
    ∀ (pp : List String) (c v : Json) (pq : List String) (u c' : Json),
      writeStatic c pq u = some c' → nonPrefixPair pp pq = true →
      holdsAt c pp v → holdsAt c' pp v := by
  intro pp
  induction pp with
  | nil => intro c v pq u c' _ _ h; cases c <;> simp [holdsAt] at h
  | cons kp pr ih =>
      intro c v pq u c' hw hnp h
      cases pq with
      | nil => simp [writeStatic] at hw
      | cons kq qr =>
          cases c with
          | obj m =>
              by_cases hk : kp = kq
              · subst hk
                cases pr with
                | nil =>
                    exfalso
                    revert hnp
                    simp [nonPrefixPair, List.isPrefixOf]
                | cons kp' pr' =>
                    cases qr with
                    | nil =>
                        exfalso
                        revert hnp
                        simp [nonPrefixPair, List.isPrefixOf]
                    | cons kq' qr' =>
                        have hnp' : nonPrefixPair (kp' :: pr') (kq' :: qr')
                            = true := by
                          revert hnp
                          simp [nonPrefixPair, List.isPrefixOf]
                        simp [writeStatic] at hw
                        obtain ⟨w, hwrite, hc'⟩ := hw
                        subst hc'
                        simp [holdsAt] at h
                        cases hl : lookupField m kp with
                        | none => rw [hl] at h; simp at h
                        | some c2 =>
                            rw [hl] at h
                            simp at h
                            obtain ⟨hf, hrec⟩ := h
                            rw [hl] at hwrite
                            simp [freshen, hf] at hwrite
                            simp [holdsAt, lookupField_insertField_self]
                            obtain ⟨mw, rfl⟩ :=
                              writeStatic_shape kq' qr' c2 u w hwrite
                            refine ⟨by simp [falsy], ?_⟩
                            exact ih c2 v (kq' :: qr') u (Json.obj mw)
                              hwrite hnp' hrec
              · cases qr with
                | nil =>
                    simp [writeStatic] at hw
                    subst hw
                    cases pr with
                    | nil =>
                        simp [holdsAt,
                          lookupField_insertField_ne m kq kp u hk] at h ⊢
                        exact h
                    | cons a b =>
                        simp [holdsAt,
                          lookupField_insertField_ne m kq kp u hk] at h ⊢
                        exact h
                | cons kq' qr' =>
                    simp [writeStatic] at hw
                    obtain ⟨w, hwrite, hc'⟩ := hw
                    subst hc'
                    cases pr with
                    | nil =>
                        simp [holdsAt,
                          lookupField_insertField_ne m kq kp w hk] at h ⊢
                        exact h
                    | cons a b =>
                        simp [holdsAt,
                          lookupField_insertField_ne m kq kp w hk] at h ⊢
                        exact h
          | null => simp [holdsAt] at h
          | bool b => simp [holdsAt] at h
          | num n => simp [holdsAt] at h
          | str s => simp [holdsAt] at h
          | arr xs => simp [holdsAt] at h

theorem writeStaticTop_identity (m : List (String × Json))
    (parts : List String) (v : Json) (h : holdsTop m parts v) :
    writeStaticTop m parts v = some m := by
  cases parts with
  | nil => simp [holdsTop] at h
  | cons k rest =>
      cases rest with
      | nil =>
          simp [holdsTop] at h
          simp [writeStaticTop, insertField_self m k v h]
      | cons k' rest' =>
          simp [holdsTop] at h
          cases hl : lookupField m k with
          | none => rw [hl] at h; simp at h
          | some c2 =>
              rw [hl] at h
              simp at h
              obtain ⟨hf, hrec⟩ := h
              simp [writeStaticTop, hl, freshen, hf,
                writeStatic_identity _ _ _ hrec, insertField_self m k c2 hl]

theorem writeStaticTop_holdsTop (m : List (String × Json))
    (parts : List String) (v : Json) (m' : List (String × Json))
    (h : writeStaticTop m parts v = some m') : holdsTop m' parts v := by
  cases parts with
  | nil => simp [writeStaticTop] at h
  | cons k rest =>
      cases rest with
      | nil =>
          simp [writeStaticTop] at h
          subst h
          simp [holdsTop, lookupField_insertField_self]
      | cons k' rest' =>
          simp [writeStaticTop] at h
          obtain ⟨w, hw, hm'⟩ := h
          subst hm'
          obtain ⟨mw, rfl⟩ := writeStatic_shape k' rest' _ v w hw
          simp [holdsTop, lookupField_insertField_self, falsy]
          exact writeStatic_holdsAt _ _ _ _ hw

theorem writeStaticTop_preserves (m : List (String × Json))
    (pq : List String) (u : Json) (m2 : List (String × Json))
    (pp : List String) (v : Json) (hw : writeStaticTop m pq u = some m2)
    (hnp : nonPrefixPair pp pq = true) (h : holdsTop m pp v) :
    holdsTop m2 pp v := by
  cases pp with
  | nil => simp [holdsTop] at h
  | cons kp pr =>
      cases pq with
      | nil => simp [writeStaticTop] at hw
      | cons kq qr =>
          by_cases hk : kp = kq
          · subst hk
            cases pr with
            | nil =>
                exfalso
                revert hnp
                simp [nonPrefixPair, List.isPrefixOf]
            | cons kp' pr' =>
                cases qr with
                | nil =>
                    exfalso
                    revert hnp
                    simp [nonPrefixPair, List.isPrefixOf]
                | cons kq' qr' =>
                    have hnp' : nonPrefixPair (kp' :: pr') (kq' :: qr')
                        = true := by
                      revert hnp
                      simp [nonPrefixPair, List.isPrefixOf]
                    simp [writeStaticTop] at hw
                    obtain ⟨w, hwrite, hm2⟩ := hw
                    subst hm2
                    simp [holdsTop] at h
                    cases hl : lookupField m kp with
                    | none => rw [hl] at h; simp at h
                    | some c2 =>
                        rw [hl] at h
                        simp at h
                        obtain ⟨hf, hrec⟩ := h
                        rw [hl] at hwrite
                        simp [freshen, hf] at hwrite
                        simp [holdsTop, lookupField_insertField_self]
                        obtain ⟨mw, rfl⟩ :=
                          writeStatic_shape kq' qr' c2 u w hwrite
                        exact ⟨by simp [falsy],
                          writeStatic_preserves (kp' :: pr') c2 v (kq' :: qr')
                            u (Json.obj mw) hwrite hnp' hrec⟩
          · cases qr with
            | nil =>
                simp [writeStaticTop] at hw
                subst hw
                cases pr with
                | nil =>
                    simp [holdsTop,
                      lookupField_insertField_ne m kq kp u hk] at h ⊢
                    exact h
                | cons a b =>
                    simp [holdsTop,
                      lookupField_insertField_ne m kq kp u hk] at h ⊢
                    exact h
            | cons kq' qr' =>
                simp [writeStaticTop] at hw
                obtain ⟨w, hwrite, hm2⟩ := hw
                subst hm2
                cases pr with
                | nil =>
                    simp [holdsTop,
                      lookupField_insertField_ne m kq kp w hk] at h ⊢
                    exact h
                | cons a b =>
                    simp [holdsTop,
                      lookupField_insertField_ne m kq kp w hk] at h ⊢
                    exact h

theorem applyYamlValues_foldl_none (o : List (String × Json)) :
    List.foldl
      (fun acc e => acc.bind (fun m => writeStaticTop m (splitDot e.1) e.2))
      none o = none := by
  induction o with
  | nil => rfl
  | cons e o' ih => simpa using ih

theorem applyYamlValues_cons (p : String) (v : Json)
    (o : List (String × Json)) (m : List (String × Json)) :
    applyYamlValues ((p, v) :: o) m
      = match writeStaticTop m (splitDot p) v with
        | some m1 => applyYamlValues o m1
        | none => none := by
  cases hw : writeStaticTop m (splitDot p) v with
  | some m1 => simp [applyYamlValues, hw]
  | none => simp [applyYamlValues, hw, applyYamlValues_foldl_none]

theorem applyYamlValues_preserves :
    ∀ (o : List (String × Json)) (m r : List (String × Json))
      (pp : List String) (v : Json),
      applyYamlValues o m = some r →
      (∀ e ∈ o, nonPrefixPair pp (splitDot e.1) = true) →
      holdsTop m pp v → holdsTop r pp v := by
  intro o
  induction o with
  | nil =>
      intro m r pp v h _ hh
      simp [applyYamlValues] at h
      exact h ▸ hh
  | cons e o' ih =>
      intro m r pp v h hnp hh
      obtain ⟨p, w⟩ := e
      rw [applyYamlValues_cons] at h
      cases hw : writeStaticTop m (splitDot p) w with
      | none => rw [hw] at h; simp at h
      | some m1 =>
          rw [hw] at h
          simp only at h
          have hh1 : holdsTop m1 pp v :=
            writeStaticTop_preserves m (splitDot p) w m1 pp v hw
              (hnp (p, w) (by simp)) hh
          exact ih m1 r pp v h
            (fun e2 he2 => hnp e2 (List.mem_cons_of_mem _ he2)) hh1

theorem applyYamlValues_establishes :
    ∀ (o : List (String × Json)) (m r : List (String × Json)),
      pairwiseAddrs o = true → applyYamlValues o m = some r →
      ∀ e ∈ o, holdsTop r (splitDot e.1) e.2 := by
  intro o
  induction o with
  | nil => intro m r _ _ e he; simp at he
  | cons e0 o' ih =>
      intro m r hp h e he
      obtain ⟨p, w⟩ := e0
      rw [applyYamlValues_cons] at h
      cases hw : writeStaticTop m (splitDot p) w with
      | none => rw [hw] at h; simp at h
      | some m1 =>
          rw [hw] at h
          simp only at h
          simp only [pairwiseAddrs, Bool.and_eq_true, List.all_eq_true] at hp
          obtain ⟨hall, hp'⟩ := hp
          rcases List.mem_cons.mp he with heq | he'
          · subst heq
            exact applyYamlValues_preserves o' m1 r (splitDot p) w h
              (fun e2 he2 => hall e2 he2)
              (writeStaticTop_holdsTop m (splitDot p) w m1 hw)
          · exact ih m1 r hp' h e he'

theorem applyYamlValues_identity :
    ∀ (o : List (String × Json)) (r : List (String × Json)),
      (∀ e ∈ o, holdsTop r (splitDot e.1) e.2) →
      applyYamlValues o r = some r := by
  intro o
  induction o with
  | nil => intro r _; rfl
  | cons e0 o' ih =>
      intro r hall
      obtain ⟨p, w⟩ := e0
      rw [applyYamlValues_cons]
      rw [writeStaticTop_identity r (splitDot p) w (hall (p, w) (by simp))]
      exact ih r (fun e he => hall e (List.mem_cons_of_mem _ he))

/-- C7 (amended). Static overlay application is idempotent for overlays
whose addresses are pairwise non-nested (no address is a dot-prefix of
another, the situation of every well-formed flat overlay): a successful
first application leaves every entry's value in place with truthy object
intermediates, so the second application rewrites each entry identically and
returns the same instance. When one address extends another, the second
application can instead raise — see the counterexample. -/
theorem static_overlay_idempotent (o : List (String × Json))
    (m r : List (String × Json)) (hpair : pairwiseAddrs o = true)
    (h : applyYamlValues o m = some r) :
    applyYamlValues o r = some r ∧
    (applyYamlValues o m).bind (applyYamlValues o) = applyYamlValues o m := by
  have h1 : applyYamlValues o r = some r :=
    applyYamlValues_identity o r (applyYamlValues_establishes o m r hpair h)
  refine ⟨h1, ?_⟩
  rw [h]
  simpa using h1

theorem static_overlay_idempotent_witness :
    pairwiseAddrs [("a.b", Json.str "1"), ("c", Json.str "2")] = true ∧
    applyYamlValues [("a.b", Json.str "1"), ("c", Json.str "2")] []
      = some [("a", Json.obj [("b", Json.str "1")]), ("c", Json.str "2")] ∧
    applyYamlValues [("a.b", Json.str "1"), ("c", Json.str "2")]
        [("a", Json.obj [("b", Json.str "1")]), ("c", Json.str "2")]
      = some [("a", Json.obj [("b", Json.str "1")]), ("c", Json.str "2")] :=
  ⟨rfl, rfl,
    (static_overlay_idempotent [("a.b", Json.str "1"), ("c", Json.str "2")]
      [] [("a", Json.obj [("b", Json.str "1")]), ("c", Json.str "2")]
      rfl rfl).1⟩

/-- C7, the claim as stated is false: with the overlay
`{"a.b.c": "1", "a": "s"}` the first application to the empty skeleton
succeeds and yields `{a: "s"}`, but the second application descends into the
truthy scalar `"s"` while writing `a.b.c` and raises — applying twice is not
the same as applying once. -/
theorem static_overlay_idempotent_counterexample :
    applyYamlValues [("a.b.c", Json.str "1"), ("a", Json.str "s")] []
      = some [("a", Json.str "s")] ∧
    applyYamlValues [("a.b.c", Json.str "1"), ("a", Json.str "s")]
      [("a", Json.str "s")] = none := ⟨rfl, rfl⟩
